import Mathlib

/-!
Verification development for the resharding orchestrator
(`src/scripts/extraction/shard_events.py`).

The script is shallowly embedded as follows:

* a file path relative to `raw_cohort_dir` is a `RelFile`: its directory
  components plus its final name, each modelled as a `List Char`;
* the per-format table readers are abstracted by a function
  `tbl : RelFile → List α` giving the rows of each input file; the table
  decorated with the synthetic row-index column (`ROW_IDX_NAME`) is then
  `(tbl f).enum`;
* Python's `pathlib.Path.suffix` is `pySuffix`, Python's
  `range(start, stop, step)` (which raises on a zero step) is `pyRange`,
  both faithful to CPython semantics;
* fallible code returns `Except (List Char)` carrying the error message;
* the side effects of the driver (one `rwlock_wrap` call per chunk) are
  reified as the list of `WorkItem`s the run produces before its first
  uncaught exception, paired with that exception's message if any.
-/

/-- A file path relative to the raw cohort root: directory components and
the file name.  Mirrors the `Path` values produced by
`raw_cohort_dir.glob` after removing the root. -/
structure RelFile where
  dirs : List (List Char)
  name : List Char
deriving DecidableEq

deriving instance DecidableEq for Except

/-- Models `get_shard_prefix(raw_cohort_dir, fp)` from the source: the
relative parent directory joined with `relative_path.name.split(".")[0]`,
i.e. the name cut at its FIRST dot. -/
def shardOf (f : RelFile) : List (List Char) :=
  f.dirs ++ [f.name.takeWhile (fun c => c != '.')]

/-- The format preference list iterated by `main`:
`for fmt in ["parquet", "csv", "csv.gz"]`. -/
def formats : List (List Char) :=
  [("parquet").data, ("csv").data, ("csv.gz").data]

/-- Whether `raw_cohort_dir.glob(f"**/*.{fmt}")` matches the file: its name
ends with `"." ++ fmt`. -/
def matchesFmt (f : RelFile) (fmt : List Char) : Bool :=
  List.isSuffixOf ('.' :: fmt) f.name

/-- The full stream of glob matches seen by the discovery loop, formats in
preference order, keeping each format's files in their listing order. -/
def dedupQueue (files : List RelFile) : List RelFile :=
  formats.flatMap (fun fmt => files.filter (fun f => matchesFmt f fmt))

/-- The discovery loop of `main`: accepts a file when its shard identity is
not in `seen_files`, otherwise records it as skipped (one warning each).
Returns (accepted files, skipped files). -/
def discoverAux : List (List (List Char)) → List RelFile → List RelFile → List RelFile →
    List RelFile × List RelFile
  | _, acc, skip, [] => (acc, skip)
  | seen, acc, skip, f :: rest =>
    if shardOf f ∈ seen then
      discoverAux seen acc (skip ++ [f]) rest
    else
      discoverAux (shardOf f :: seen) (acc ++ [f]) skip rest

/-- File discovery and deduplication (lines 88-97 of the source). -/
def discover (files : List RelFile) : List RelFile × List RelFile :=
  discoverAux [] [] [] (dedupQueue files)

/-- Models CPython's `pathlib.PurePath.suffix`: the part of the name from
the last dot, but only when that dot is neither the first nor the last
character of the name; otherwise the empty suffix. -/
def pySuffix (name : List Char) : List Char :=
  if (name.reverse.takeWhile (fun c => c != '.')).length = name.length then []
  else if 0 < name.length - 1 - (name.reverse.takeWhile (fun c => c != '.')).length ∧
      name.reverse.takeWhile (fun c => c != '.') ≠ [] then
    '.' :: (name.reverse.takeWhile (fun c => c != '.')).reverse
  else []

/-- Models `scan_with_row_idx`: dispatch on `fp.suffix.lower()`; the three
supported branches all return the lazily row-indexed table of the file
(readers abstracted by `tbl`), the fallthrough raises
`ValueError(f"Unsupported file type: X")` naming `fp.suffix`. -/
def scan_with_row_idx {α : Type} (tbl : RelFile → List α) (f : RelFile) :
    Except (List Char) (List (Nat × α)) :=
  if (pySuffix f.name).map Char.toLower = (".csv.gz").data then
    Except.ok (tbl f).enum
  else if (pySuffix f.name).map Char.toLower = (".csv").data then
    Except.ok (tbl f).enum
  else if (pySuffix f.name).map Char.toLower = (".parquet").data then
    Except.ok (tbl f).enum
  else
    Except.error (("Unsupported file type: ").data ++ pySuffix f.name)

/-- Models `filter_to_row_chunk(df, start, end)`: keep the rows whose
`ROW_IDX_NAME` column is in `[start, end)` (polars `is_between` with
`closed="left"`), then drop the index column. Pure; no I/O. -/
def filter_to_row_chunk {α : Type} (df : List (Nat × α)) (start stop : Int) : List α :=
  (df.filter (fun p => decide (start ≤ (p.1 : Int) ∧ (p.1 : Int) < stop))).map Prod.snd

/-- Models Python's `range(start, stop, step)` over `int`: raises
`ValueError` on `step = 0`, otherwise the arithmetic progression from
`start` of the usual length. -/
def pyRange (start stop step : Int) : Except (List Char) (List Int) :=
  if step = 0 then
    Except.error (("range() arg 3 must not be zero").data)
  else
    let count :=
      if 0 < step then ((stop - start).toNat + (step.toNat - 1)) / step.toNat
      else ((start - stop).toNat + ((-step).toNat - 1)) / (-step).toNat
    Except.ok ((List.range count).map (fun i : Nat => start + step * (i : Int)))

/-- Decimal digits of a natural number, fuel-driven so that it reduces in
the kernel; models Python `str` on a nonnegative `int`. -/
def natDigitsAux : Nat → Nat → List Char → List Char
  | 0, _, acc => acc
  | fuel + 1, n, acc =>
    let d := Char.ofNat (48 + n % 10)
    if n < 10 then d :: acc else natDigitsAux fuel (n / 10) (d :: acc)

/-- Python `str` of an `int`. -/
def intChars (i : Int) : List Char :=
  if i < 0 then '-' :: natDigitsAux (i.natAbs + 1) i.natAbs []
  else natDigitsAux (i.toNat + 1) i.toNat []

/-- The chunk file name `f"[{st}-{end}).parquet"`. -/
def chunkFileName (st stop : Int) : List Char :=
  '[' :: (intChars st ++ '-' :: (intChars stop ++ (").parquet").data))

/-- One dispatched `rwlock_wrap` call, reified: the output target path (as
its components under the output root) and the materialized content the
wrapper computes for it, `compute_fn(read_fn(input_file))`. -/
structure WorkItem (α : Type) where
  path : List (List Char)
  content : List α
deriving DecidableEq

/-- The body of the per-file loop of `main` (lines 107-128): scan the file
(may raise for an unsupported suffix), probe the row count, compute the
chunk starts with `range(0, row_count, row_chunksize)` (may raise for a
zero chunk size), shuffle them, and emit one work item per chunk with
`end = min(st + row_chunksize, row_count)`. -/
def filePlan {α : Type} (tbl : RelFile → List α) (cohortDir : List (List Char)) (C : Int)
    (shuffleC : RelFile → List Int → List Int) (f : RelFile) :
    Except (List Char) (List (WorkItem α)) := do
  let df ← scan_with_row_idx tbl f
  let rowCount := df.length
  let shards ← pyRange 0 (rowCount : Int) C
  let shards := shuffleC f shards
  Except.ok (shards.map (fun st =>
    let stop := min (st + C) (rowCount : Int)
    { path := cohortDir ++ [("sub_sharded").data] ++ shardOf f ++ [chunkFileName st stop],
      content := filter_to_row_chunk df st stop }))

/-- Sequentially process the (already shuffled) accepted files, collecting
the work items produced before the first uncaught exception, and that
exception's message if one is raised. -/
def runFiles {α : Type} (tbl : RelFile → List α) (cohortDir : List (List Char)) (C : Int)
    (shuffleC : RelFile → List Int → List Int) :
    List RelFile → List (WorkItem α) × Option (List Char)
  | [] => ([], none)
  | f :: rest =>
    match filePlan tbl cohortDir C shuffleC f with
    | Except.error e => ([], some e)
    | Except.ok items =>
      let r := runFiles tbl cohortDir C shuffleC rest
      (items ++ r.1, r.2)

/-- The whole of `main` after configuration loading: discover and
deduplicate the input files, shuffle them (`random.shuffle`), and process
each in order, its chunk starts independently shuffled.  The shufflers are
explicit parameters; faithfulness to `random.shuffle` is the hypothesis
that they permute their argument. -/
def mainRun {α : Type} (tbl : RelFile → List α) (cohortDir : List (List Char)) (C : Int)
    (shuffleF : List RelFile → List RelFile) (shuffleC : RelFile → List Int → List Int)
    (files : List RelFile) : List (WorkItem α) × Option (List Char) :=
  runFiles tbl cohortDir C shuffleC (shuffleF (discover files).1)

/-- The Boolean test "this file has logical shard identity `p`". -/
def hasShard (p : List (List Char)) (f : RelFile) : Bool :=
  decide (shardOf f = p)

/-- The format variants of identity `p` among `files`, listed in the fixed
format-preference order `parquet > csv > csv.gz` (within one format, in
listing order).  This is the subsequence of the discovery queue with
identity `p`. -/
def fmtVariants (files : List RelFile) (p : List (List Char)) : List RelFile :=
  ((files.filter (fun f => matchesFmt f (("parquet").data))).filter (hasShard p)) ++
    ((files.filter (fun f => matchesFmt f (("csv").data))).filter (hasShard p)) ++
    ((files.filter (fun f => matchesFmt f (("csv.gz").data))).filter (hasShard p))

/-- Modelled from the spec (for comparison with `shardOf` only): "the path
of an input file relative to the raw-cohort root, with its file-format
suffix stripped" — the name with the matched `"." ++ fmt` suffix removed. -/
def specShardId (f : RelFile) (fmt : List Char) : List (List Char) :=
  f.dirs ++ [f.name.take (f.name.length - (fmt.length + 1))]

lemma filter_enumFrom_slice {α : Type} (s e : Nat) :
    ∀ (rows : List α) (k : Nat),
      ((List.enumFrom k rows).filter (fun p => decide (s ≤ p.1 ∧ p.1 < e))).map Prod.snd
        = (rows.take (e - k)).drop (s - k) := by
  intro rows
  induction rows with
  | nil => intro k; simp
  | cons r rows ih =>
    intro k
    rw [List.enumFrom_cons]
    by_cases hs : s ≤ k
    · by_cases he : k < e
      · rw [List.filter_cons_of_pos (by simp [hs, he])]
        simp only [List.map_cons]
        rw [ih (k + 1)]
        have h1 : e - k = (e - (k + 1)) + 1 := by omega
        have h2 : s - k = 0 := by omega
        have h3 : s - (k + 1) = 0 := by omega
        rw [h1, h2, h3, List.take_succ_cons, List.drop_zero, List.drop_zero]
      · rw [List.filter_cons_of_neg (by simp [he])]
        rw [ih (k + 1)]
        have h1 : e - k = 0 := by omega
        have h2 : e - (k + 1) = 0 := by omega
        simp [h1, h2]
    · rw [List.filter_cons_of_neg (by simp [hs])]
      rw [ih (k + 1)]
      by_cases he : k < e
      · have h1 : e - k = (e - (k + 1)) + 1 := by omega
        have h2 : s - k = (s - (k + 1)) + 1 := by omega
        rw [h1, h2, List.take_succ_cons, List.drop_succ_cons]
      · have h1 : e - k = 0 := by omega
        have h2 : e - (k + 1) = 0 := by omega
        simp [h1, h2]

/-- C5: for every lazy table decorated with the synthetic row-index column
(`rows.enum`) and every pair of bounds `start`, `stop`, the row-chunk
filter returns exactly the rows whose index lies in the half-open interval
`[start, stop)` — i.e. the contiguous slice of the underlying rows — with
the synthetic index column removed from the output (the result is a bare
row list).  The function is a pure computation, performing no I/O. -/
theorem c5_filter_exact {α : Type} (rows : List α) (start stop : Int) :
    filter_to_row_chunk rows.enum start stop = (rows.take stop.toNat).drop start.toNat := by
  have hcond : ∀ p : Nat × α,
      (decide (start ≤ (p.1 : Int) ∧ (p.1 : Int) < stop))
        = (decide (start.toNat ≤ p.1 ∧ p.1 < stop.toNat)) := by
    intro p
    rw [decide_eq_decide]
    omega
  unfold filter_to_row_chunk
  rw [List.filter_congr (fun x _ => hcond x)]
  have henum : rows.enum = List.enumFrom 0 rows := rfl
  rw [henum, filter_enumFrom_slice]
  simp

lemma takeWhile_zg (t : List Char) :
    List.takeWhile (fun c => c != '.') ('z' :: 'g' :: '.' :: t) = ['z', 'g'] := by
  rw [List.takeWhile_cons, if_pos (by decide), List.takeWhile_cons, if_pos (by decide),
    List.takeWhile_cons, if_neg (by decide)]

lemma pySuffix_csv_gz (s : List Char) :
    pySuffix (s ++ ((".csv.gz").data)) = ((".gz").data) := by
  unfold pySuffix
  have hd : (((".csv.gz").data)).reverse = 'z' :: 'g' :: '.' :: (("vsc.").data) := by decide
  have hrev : (s ++ ((".csv.gz").data)).reverse
      = 'z' :: 'g' :: '.' :: ((("vsc.").data) ++ s.reverse) := by
    rw [List.reverse_append, hd]; rfl
  have hlen : (s ++ ((".csv.gz").data)).length = s.length + 7 := by simp
  rw [hrev, takeWhile_zg, hlen]
  rw [if_neg (by simp), if_pos ⟨by simp, by simp⟩]
  rfl

/-- C1: the spec requires `.csv.gz` inputs to be read as gzip-compressed
CSV, and `scan_with_row_idx` has a `case ".csv.gz"` arm with a dedicated
gzip reader — but `Path.suffix` of a `*.csv.gz` path is `".gz"`, so that
arm is unreachable and every such file falls through to the
unsupported-file-type `ValueError` naming `.gz`.  This theorem evaluates
the embedded dispatch at every path whose name ends in `.csv.gz`. -/
theorem c1_csv_gz_dispatch_bug {α : Type} (tbl : RelFile → List α)
    (dirs : List (List Char)) (s : List Char) :
    scan_with_row_idx tbl ⟨dirs, s ++ ((".csv.gz").data)⟩
      = Except.error (("Unsupported file type: .gz").data) := by
  unfold scan_with_row_idx
  rw [pySuffix_csv_gz]
  split_ifs with hA hB hC
  · exact absurd hA (by decide)
  · exact absurd hB (by decide)
  · exact absurd hC (by decide)
  · exact congrArg Except.error (by decide)

/-- C7: for every file whose (lower-cased) suffix is none of the supported
formats, per-file dispatch fails fast with an error whose message names
the offending suffix — it is not silently skipped. -/
theorem c7_unsupported_dispatch {α : Type} (tbl : RelFile → List α) (f : RelFile)
    (h : ((pySuffix f.name).map Char.toLower) ∉
      [((".csv.gz").data), ((".csv").data), ((".parquet").data)]) :
    scan_with_row_idx tbl f
      = Except.error ((("Unsupported file type: ").data) ++ pySuffix f.name) := by
  simp only [List.mem_cons, List.not_mem_nil, or_false, not_or] at h
  unfold scan_with_row_idx
  split_ifs with hA hB hC
  · exact absurd hA h.1
  · exact absurd hB h.2.1
  · exact absurd hC h.2.2
  · rfl

theorem c7_unsupported_dispatch_witness :
    (((pySuffix (("data.txt").data)).map Char.toLower) ∉
      [((".csv.gz").data), ((".csv").data), ((".parquet").data)]) ∧
    scan_with_row_idx (fun _ => ([] : List Nat)) ⟨[], ("data.txt").data⟩
      = Except.error (("Unsupported file type: .txt").data) := by
  refine ⟨by decide, ?_⟩
  exact (c7_unsupported_dispatch (fun _ => ([] : List Nat)) ⟨[], ("data.txt").data⟩
    (by decide)).trans (by decide)

lemma scan_ok_of_isOk {α : Type} (tbl : RelFile → List α) (f : RelFile)
    (h : (scan_with_row_idx tbl f).isOk = true) :
    scan_with_row_idx tbl f = Except.ok (tbl f).enum := by
  unfold scan_with_row_idx at h ⊢
  split_ifs at h ⊢ <;> first | rfl | simp [Except.isOk, Except.toBool] at h

lemma bind_ok_eq {β γ : Type} (x : β) (k : β → Except (List Char) γ) :
    ((Except.ok x : Except (List Char) β) >>= k) = k x := rfl

lemma pyRange_zero_pos {C : Int} (hC : 0 < C) : pyRange 0 0 C = Except.ok [] := by
  unfold pyRange
  rw [if_neg (by omega)]
  simp only [if_pos hC]
  have hcount : ((0 - 0 : Int).toNat + (C.toNat - 1)) / C.toNat = 0 :=
    Nat.div_eq_of_lt (by omega)
  rw [hcount]
  rfl

/-- C8: a zero-row input file yields zero chunks and zero work items — the
per-file plan succeeds with an empty work list, not an error (given a
readable file and the configured positive chunk size). -/
theorem c8_zero_rows {α : Type} (tbl : RelFile → List α) (cohortDir : List (List Char))
    (C : Int) (sC : RelFile → List Int → List Int) (f : RelFile)
    (hscan : (scan_with_row_idx tbl f).isOk = true) (hC : 0 < C)
    (hR : (tbl f).length = 0) (hsC : sC f [] = []) :
    filePlan tbl cohortDir C sC f = Except.ok [] := by
  have htbl : tbl f = [] := List.length_eq_zero.mp hR
  have hscan2 : scan_with_row_idx tbl f = Except.ok ([] : List (Nat × α)) := by
    rw [scan_ok_of_isOk tbl f hscan, htbl]; rfl
  unfold filePlan
  rw [hscan2, bind_ok_eq]
  show (pyRange 0 0 C >>= _) = _
  rw [pyRange_zero_pos hC, bind_ok_eq]
  show Except.ok ((sC f []).map _) = _
  rw [hsC]
  rfl

theorem c8_zero_rows_witness :
    ((scan_with_row_idx (fun _ => ([] : List Nat)) ⟨[], ("e.csv").data⟩).isOk = true) ∧
    ((0 : Int) < 3) ∧
    filePlan (fun _ => ([] : List Nat)) [("out").data] 3 (fun _ l => l) ⟨[], ("e.csv").data⟩
      = Except.ok [] := by
  refine ⟨by decide, by decide, ?_⟩
  exact c8_zero_rows (fun _ => ([] : List Nat)) [("out").data] 3 (fun _ l => l)
    ⟨[], ("e.csv").data⟩ (by decide) (by decide) (by decide) rfl

lemma pyRange_neg_empty (R : Nat) {C : Int} (hC : C < 0) :
    pyRange 0 (R : Int) C = Except.ok [] := by
  unfold pyRange
  rw [if_neg (by omega)]
  simp only [if_neg (by omega : ¬(0 : Int) < C)]
  have hcount : ((0 - (R : Int)).toNat + ((-C).toNat - 1)) / (-C).toNat = 0 := by
    have h0 : (0 - (R : Int)).toNat = 0 := by omega
    rw [h0]
    exact Nat.div_eq_of_lt (by omega)
  rw [hcount]
  rfl

/-- C10: the configured `row_chunksize` is passed to `range` unvalidated:
for a positive row count, a chunk size of `0` makes the chunk-start
computation raise `ValueError("range() arg 3 must not be zero")`, while
any negative chunk size silently yields zero chunk starts, so the file is
skipped with zero work items and no error (and discovery, the only warning
source, never consults the chunk size). -/
theorem c10_chunksize_unchecked {α : Type} (tbl : RelFile → List α)
    (cohortDir : List (List Char)) (sC : RelFile → List Int → List Int) (f : RelFile)
    (R : Nat) (C : Int)
    (hscan : (scan_with_row_idx tbl f).isOk = true) (hR : (tbl f).length = R)
    (hRpos : 0 < R) (hC : C < 0) (hsC : sC f [] = []) :
    pyRange 0 (R : Int) 0 = Except.error (("range() arg 3 must not be zero").data) ∧
    pyRange 0 (R : Int) C = Except.ok [] ∧
    filePlan tbl cohortDir C sC f = Except.ok [] := by
  refine ⟨by unfold pyRange; rw [if_pos rfl], pyRange_neg_empty R hC, ?_⟩
  have hscan2 : scan_with_row_idx tbl f = Except.ok (tbl f).enum := scan_ok_of_isOk tbl f hscan
  unfold filePlan
  rw [hscan2, bind_ok_eq]
  show (pyRange 0 ((tbl f).enum.length : Int) C >>= _) = _
  rw [List.enum_length, hR, pyRange_neg_empty R hC, bind_ok_eq]
  show Except.ok ((sC f []).map _) = _
  rw [hsC]
  rfl

theorem c10_chunksize_unchecked_witness :
    ((scan_with_row_idx (fun _ => ([5] : List Nat)) ⟨[], ("e.csv").data⟩).isOk = true) ∧
    ((0 : Nat) < 1) ∧ ((-2 : Int) < 0) ∧
    (pyRange 0 ((1 : Nat) : Int) 0 = Except.error (("range() arg 3 must not be zero").data) ∧
      pyRange 0 ((1 : Nat) : Int) (-2) = Except.ok [] ∧
      filePlan (fun _ => ([5] : List Nat)) [] (-2) (fun _ l => l) ⟨[], ("e.csv").data⟩
        = Except.ok []) := by
  refine ⟨by decide, by decide, by decide, ?_⟩
  exact c10_chunksize_unchecked (fun _ => ([5] : List Nat)) [] (fun _ l => l)
    ⟨[], ("e.csv").data⟩ 1 (-2) (by decide) rfl (by decide) (by decide) rfl

/-- C4 counterexample: with input files `a.parquet` (one row) and
`b.csv.gz`, both accepted by discovery, two legitimate scheduling shuffles
(the identity and list reversal, both permutations) produce different sets
of output targets: processing `a.parquet` first writes its chunk before
the run aborts on `b.csv.gz`'s dispatch error (see C1), while the reversed
order aborts immediately and writes nothing.  The randomized ordering thus
does affect which outputs exist. -/
theorem c4_sched_counterexample :
    (([⟨[], ("a.parquet").data⟩, ⟨[], ("b.csv.gz").data⟩] : List RelFile).reverse.Perm
      [⟨[], ("a.parquet").data⟩, ⟨[], ("b.csv.gz").data⟩]) ∧
    (mainRun (fun _ => ([0] : List Nat)) [] 1 (fun l => l) (fun _ l => l)
        [⟨[], ("a.parquet").data⟩, ⟨[], ("b.csv.gz").data⟩]).1.length = 1 ∧
    (mainRun (fun _ => ([0] : List Nat)) [] 1 (fun l => l.reverse) (fun _ l => l)
        [⟨[], ("a.parquet").data⟩, ⟨[], ("b.csv.gz").data⟩]).1.length = 0 := by
  exact ⟨by decide, by decide, by decide⟩

/-- C6 counterexample: for the accepted input file `data.2020.csv` the
produced output directory component is `data` (the name cut at its FIRST
dot by `get_shard_prefix`), not the extension-stripped relative path
`data.2020` that the claim describes. -/
theorem c6_path_counterexample :
    matchesFmt ⟨[], ("data.2020.csv").data⟩ (("csv").data) = true ∧
    (mainRun (fun _ => ([0] : List Nat)) [] 1 (fun l => l) (fun _ l => l)
        [⟨[], ("data.2020.csv").data⟩]).1.map (fun it => it.path)
      = [[("sub_sharded").data, ("data").data, ("[0-1).parquet").data]] ∧
    shardOf ⟨[], ("data.2020.csv").data⟩
      ≠ specShardId ⟨[], ("data.2020.csv").data⟩ (("csv").data) := by
  exact ⟨by decide, by decide, by decide⟩

lemma discoverAux_filter (p : List (List Char)) :
    ∀ (queue : List RelFile) (seen : List (List (List Char))) (acc skip : List RelFile),
      ((discoverAux seen acc skip queue).1.filter (hasShard p)
          = acc.filter (hasShard p) ++
              (if p ∈ seen then [] else (queue.filter (hasShard p)).take 1)) ∧
      ((discoverAux seen acc skip queue).2.filter (hasShard p)
          = skip.filter (hasShard p) ++
              (if p ∈ seen then queue.filter (hasShard p)
               else (queue.filter (hasShard p)).tail)) := by
  intro queue
  induction queue with
  | nil =>
    intro seen acc skip
    refine ⟨?_, ?_⟩ <;>
      · simp only [discoverAux, List.filter_nil]
        split_ifs <;> simp
  | cons f rest ih =>
    intro seen acc skip
    by_cases hf : shardOf f ∈ seen
    · have hstep : discoverAux seen acc skip (f :: rest)
          = discoverAux seen acc (skip ++ [f]) rest := by
        simp only [discoverAux]
        rw [if_pos hf]
      rw [hstep]
      obtain ⟨ih1, ih2⟩ := ih seen acc (skip ++ [f])
      by_cases hp : shardOf f = p
      · have hpseen : p ∈ seen := hp ▸ hf
        refine ⟨?_, ?_⟩
        · rw [ih1, if_pos hpseen, if_pos hpseen]
        · rw [ih2, List.filter_append, if_pos hpseen, if_pos hpseen]
          have hsing : [f].filter (hasShard p) = [f] := by simp [hasShard, hp]
          have hcons : (f :: rest).filter (hasShard p) = f :: rest.filter (hasShard p) :=
            List.filter_cons_of_pos (by simp [hasShard, hp])
          rw [hsing, hcons, List.append_assoc, List.singleton_append]
      · have hfil : (f :: rest).filter (hasShard p) = rest.filter (hasShard p) :=
          List.filter_cons_of_neg (by simp [hasShard, hp])
        refine ⟨?_, ?_⟩
        · rw [ih1, hfil]
        · rw [ih2, List.filter_append, hfil]
          have hsing : [f].filter (hasShard p) = [] := by simp [hasShard, hp]
          rw [hsing, List.append_nil]
    · have hstep : discoverAux seen acc skip (f :: rest)
          = discoverAux (shardOf f :: seen) (acc ++ [f]) skip rest := by
        simp only [discoverAux]
        rw [if_neg hf]
      rw [hstep]
      obtain ⟨ih1, ih2⟩ := ih (shardOf f :: seen) (acc ++ [f]) skip
      by_cases hp : shardOf f = p
      · have hpnotseen : p ∉ seen := fun h => hf (hp ▸ h)
        have hpseen' : p ∈ shardOf f :: seen := by
          rw [hp]
          exact List.mem_cons_self _ _
        have hcons : (f :: rest).filter (hasShard p) = f :: rest.filter (hasShard p) :=
          List.filter_cons_of_pos (by simp [hasShard, hp])
        refine ⟨?_, ?_⟩
        · rw [ih1, List.filter_append, if_pos hpseen', if_neg hpnotseen, hcons]
          have hsing : [f].filter (hasShard p) = [f] := by simp [hasShard, hp]
          rw [hsing, List.append_nil, List.take_succ_cons, List.take_zero]
        · rw [ih2, if_pos hpseen', if_neg hpnotseen, hcons, List.tail_cons]
      · have hiff : (p ∈ shardOf f :: seen) ↔ p ∈ seen := by
          simp only [List.mem_cons]
          constructor
          · rintro (h | h)
            · exact absurd h.symm hp
            · exact h
          · exact Or.inr
        have hfil : (f :: rest).filter (hasShard p) = rest.filter (hasShard p) :=
          List.filter_cons_of_neg (by simp [hasShard, hp])
        refine ⟨?_, ?_⟩
        · rw [ih1, List.filter_append, hfil]
          have hsing : [f].filter (hasShard p) = [] := by simp [hasShard, hp]
          rw [hsing, List.append_nil]
          by_cases hps : p ∈ seen
          · rw [if_pos hps, if_pos (hiff.mpr hps)]
          · rw [if_neg hps, if_neg (fun h => hps (hiff.mp h))]
        · rw [ih2, hfil]
          by_cases hps : p ∈ seen
          · rw [if_pos hps, if_pos (hiff.mpr hps)]
          · rw [if_neg hps, if_neg (fun h => hps (hiff.mp h))]

lemma dedupQueue_filter (files : List RelFile) (p : List (List Char)) :
    (dedupQueue files).filter (hasShard p) = fmtVariants files p := by
  simp [dedupQueue, formats, fmtVariants, List.filter_append, List.append_assoc]

/-- C3: for every logical shard identity `p`, writing `fmtVariants files p`
for the format variants of `p` among the discovered files in the fixed
preference order `parquet > csv > csv.gz`, discovery accepts exactly the
most-preferred variant (the head of that list) and skips — with one
warning each — every other variant, so with `shard.parquet`, `shard.csv`
and `shard.csv.gz` present, exactly the `.parquet` file is selected and
two skip warnings are emitted. -/
theorem c3_dedup_preference (files : List RelFile) (p : List (List Char))
    (hne : fmtVariants files p ≠ []) :
    (discover files).1.filter (hasShard p) = [(fmtVariants files p).head hne] ∧
    (discover files).2.filter (hasShard p) = (fmtVariants files p).tail ∧
    ((discover files).2.filter (hasShard p)).length = (fmtVariants files p).length - 1 := by
  have hq : (dedupQueue files).filter (hasShard p) = fmtVariants files p :=
    dedupQueue_filter files p
  obtain ⟨h1, h2⟩ := discoverAux_filter p (dedupQueue files) [] [] []
  rw [List.filter_nil, if_neg (List.not_mem_nil p), List.nil_append, hq] at h1 h2
  refine ⟨?_, ?_, ?_⟩
  · unfold discover
    rw [h1, List.take_one, List.head?_eq_head hne]
    rfl
  · unfold discover
    exact h2
  · unfold discover
    rw [h2, List.length_tail]

theorem c3_dedup_preference_witness :
    (fmtVariants [⟨[], ("shard.parquet").data⟩, ⟨[], ("shard.csv").data⟩,
        ⟨[], ("shard.csv.gz").data⟩] [("shard").data] ≠ []) ∧
    (discover [⟨[], ("shard.parquet").data⟩, ⟨[], ("shard.csv").data⟩,
        ⟨[], ("shard.csv.gz").data⟩]).1.filter (hasShard [("shard").data])
      = [⟨[], ("shard.parquet").data⟩] ∧
    (discover [⟨[], ("shard.parquet").data⟩, ⟨[], ("shard.csv").data⟩,
        ⟨[], ("shard.csv.gz").data⟩]).2.filter (hasShard [("shard").data])
      = [⟨[], ("shard.csv").data⟩, ⟨[], ("shard.csv.gz").data⟩] ∧
    ((discover [⟨[], ("shard.parquet").data⟩, ⟨[], ("shard.csv").data⟩,
        ⟨[], ("shard.csv.gz").data⟩]).2.filter (hasShard [("shard").data])).length = 2 := by
  have h := c3_dedup_preference
    [⟨[], ("shard.parquet").data⟩, ⟨[], ("shard.csv").data⟩, ⟨[], ("shard.csv.gz").data⟩]
    [("shard").data] (by decide)
  exact ⟨by decide, h.1.trans (by decide), h.2.1.trans (by decide),
    h.2.2.trans (by decide)⟩

/-- C9: the logical shard identity cuts the file name at its FIRST dot, so
any two distinct discovered files in the same directory whose names agree
before their first dot share one identity; they are never both accepted,
and at least one of them is skipped as a duplicate. -/
theorem c9_first_dot_identity (files : List RelFile) (f1 f2 : RelFile)
    (h1 : f1 ∈ dedupQueue files) (h2 : f2 ∈ dedupQueue files) (hne : f1 ≠ f2)
    (hd : f1.dirs = f2.dirs)
    (hn : f1.name.takeWhile (fun c => c != '.') = f2.name.takeWhile (fun c => c != '.')) :
    shardOf f1 = shardOf f2 ∧
    ¬(f1 ∈ (discover files).1 ∧ f2 ∈ (discover files).1) ∧
    (f1 ∈ (discover files).2 ∨ f2 ∈ (discover files).2) := by
  have hsh : shardOf f1 = shardOf f2 := by
    unfold shardOf
    rw [hd, hn]
  obtain ⟨ha, hs⟩ := discoverAux_filter (shardOf f1) (dedupQueue files) [] [] []
  rw [List.filter_nil, if_neg (List.not_mem_nil (shardOf f1)), List.nil_append] at ha hs
  have hacc : (discover files).1.filter (hasShard (shardOf f1))
      = ((dedupQueue files).filter (hasShard (shardOf f1))).take 1 := by
    unfold discover
    exact ha
  have hskip : (discover files).2.filter (hasShard (shardOf f1))
      = ((dedupQueue files).filter (hasShard (shardOf f1))).tail := by
    unfold discover
    exact hs
  have hm1 : f1 ∈ (dedupQueue files).filter (hasShard (shardOf f1)) :=
    List.mem_filter.mpr ⟨h1, by simp [hasShard]⟩
  have hm2 : f2 ∈ (dedupQueue files).filter (hasShard (shardOf f1)) :=
    List.mem_filter.mpr ⟨h2, by simp [hasShard, hsh]⟩
  obtain ⟨v, t, hq⟩ : ∃ v t, (dedupQueue files).filter (hasShard (shardOf f1)) = v :: t := by
    cases hcase : (dedupQueue files).filter (hasShard (shardOf f1)) with
    | nil => rw [hcase] at hm1; exact absurd hm1 (List.not_mem_nil f1)
    | cons v t => exact ⟨v, t, rfl⟩
  refine ⟨hsh, ?_, ?_⟩
  · rintro ⟨ha1, ha2⟩
    have e1 : f1 ∈ (discover files).1.filter (hasShard (shardOf f1)) :=
      List.mem_filter.mpr ⟨ha1, by simp [hasShard]⟩
    have e2 : f2 ∈ (discover files).1.filter (hasShard (shardOf f1)) :=
      List.mem_filter.mpr ⟨ha2, by simp [hasShard, hsh]⟩
    rw [hacc, hq, List.take_succ_cons, List.take_zero] at e1 e2
    have hv1 : f1 = v := by simpa using e1
    have hv2 : f2 = v := by simpa using e2
    exact hne (hv1.trans hv2.symm)
  · rw [hq] at hm1 hm2
    rcases List.mem_cons.mp hm1 with hv1 | ht1
    · rcases List.mem_cons.mp hm2 with hv2 | ht2
      · exact absurd (hv1.trans hv2.symm) hne
      · refine Or.inr (List.mem_of_mem_filter (p := hasShard (shardOf f1)) ?_)
        rw [hskip, hq, List.tail_cons]
        exact ht2
    · refine Or.inl (List.mem_of_mem_filter (p := hasShard (shardOf f1)) ?_)
      rw [hskip, hq, List.tail_cons]
      exact ht1

theorem c9_first_dot_identity_witness :
    ((⟨[], ("data.2020.csv").data⟩ : RelFile)
        ∈ dedupQueue [⟨[], ("data.2020.csv").data⟩, ⟨[], ("data.old.csv").data⟩]) ∧
    ((⟨[], ("data.old.csv").data⟩ : RelFile)
        ∈ dedupQueue [⟨[], ("data.2020.csv").data⟩, ⟨[], ("data.old.csv").data⟩]) ∧
    ((⟨[], ("data.2020.csv").data⟩ : RelFile) ≠ ⟨[], ("data.old.csv").data⟩) ∧
    (shardOf ⟨[], ("data.2020.csv").data⟩ = shardOf ⟨[], ("data.old.csv").data⟩ ∧
      ¬((⟨[], ("data.2020.csv").data⟩ : RelFile)
            ∈ (discover [⟨[], ("data.2020.csv").data⟩, ⟨[], ("data.old.csv").data⟩]).1 ∧
          (⟨[], ("data.old.csv").data⟩ : RelFile)
            ∈ (discover [⟨[], ("data.2020.csv").data⟩, ⟨[], ("data.old.csv").data⟩]).1) ∧
      ((⟨[], ("data.2020.csv").data⟩ : RelFile)
          ∈ (discover [⟨[], ("data.2020.csv").data⟩, ⟨[], ("data.old.csv").data⟩]).2 ∨
        (⟨[], ("data.old.csv").data⟩ : RelFile)
          ∈ (discover [⟨[], ("data.2020.csv").data⟩, ⟨[], ("data.old.csv").data⟩]).2)) := by
  refine ⟨by decide, by decide, by decide, ?_⟩
  exact c9_first_dot_identity
    [⟨[], ("data.2020.csv").data⟩, ⟨[], ("data.old.csv").data⟩]
    ⟨[], ("data.2020.csv").data⟩ ⟨[], ("data.old.csv").data⟩
    (by decide) (by decide) (by decide) rfl (by decide)

lemma lt_ceil_iff {c : Nat} (hc : 0 < c) (R i : Nat) :
    i < (R + (c - 1)) / c ↔ c * i < R := by
  rw [Nat.lt_iff_add_one_le, Nat.le_div_iff_mul_le hc, Nat.add_mul, Nat.one_mul,
    Nat.mul_comm c i]
  generalize i * c = m
  omega

/-- C2: for every row count `R ≥ 0` and chunk size `C > 0`, the chunk-start
computation `range(0, R, C)` succeeds and produces the start offsets
`0, C, 2C, …`, each strictly below `R`; taking each chunk's end as
`min(start + C, R)`, the chunks are pairwise disjoint half-open intervals
whose union is exactly `[0, R)`. -/
theorem c2_chunk_coverage (R : Nat) (C : Int) (hC : 0 < C) :
    ∃ starts : List Int,
      pyRange 0 (R : Int) C = Except.ok starts ∧
      (∀ j : Fin starts.length, starts.get j = C * ((j : Nat) : Int)) ∧
      (∀ st ∈ starts, 0 ≤ st ∧ st < (R : Int)) ∧
      List.Pairwise (fun s t => ∀ x : Int,
        ¬((s ≤ x ∧ x < min (s + C) (R : Int)) ∧
          (t ≤ x ∧ x < min (t + C) (R : Int)))) starts ∧
      (∀ x : Int, (0 ≤ x ∧ x < (R : Int)) ↔
        ∃ st ∈ starts, st ≤ x ∧ x < min (st + C) (R : Int)) := by
  obtain ⟨c, rfl⟩ : ∃ c : Nat, C = (c : Int) := ⟨C.toNat, (Int.toNat_of_nonneg hC.le).symm⟩
  have hc : 0 < c := by exact_mod_cast hC
  have hpr : pyRange 0 (R : Int) (c : Int)
      = Except.ok ((List.range ((R + (c - 1)) / c)).map
          (fun i : Nat => ((c : Int)) * ((i : Nat) : Int))) := by
    unfold pyRange
    rw [if_neg (by omega)]
    simp only [if_pos hC]
    have h0 : ((R : Int) - 0).toNat = R := by omega
    have h1 : ((c : Int)).toNat = c := by omega
    rw [h0, h1]
    simp [zero_add]
  refine ⟨_, hpr, ?_, ?_, ?_, ?_⟩
  · intro j
    simp [List.get_eq_getElem, List.getElem_map, List.getElem_range]
  · intro st hst
    obtain ⟨i, hi, rfl⟩ := List.mem_map.mp hst
    rw [List.mem_range] at hi
    have hciR : c * i < R := (lt_ceil_iff hc R i).mp hi
    refine ⟨mul_nonneg (Int.natCast_nonneg c) (Int.natCast_nonneg i), ?_⟩
    exact_mod_cast hciR
  · rw [List.pairwise_map]
    refine (List.pairwise_lt_range _).imp ?_
    intro i j hij x hx
    obtain ⟨⟨hx1, hx2⟩, hx3, hx4⟩ := hx
    have h2 : c * (i + 1) ≤ c * j := Nat.mul_le_mul_left c hij
    have h1 : x < (c : Int) * (i : Int) + (c : Int) := lt_of_lt_of_le hx2 (min_le_left _ _)
    have hxx : x < x := by
      calc x < (c : Int) * (i : Int) + (c : Int) := h1
        _ = ((c * (i + 1) : Nat) : Int) := by push_cast; ring
        _ ≤ ((c * j : Nat) : Int) := by exact_mod_cast h2
        _ = (c : Int) * (j : Int) := by push_cast; ring
        _ ≤ x := hx3
    exact absurd hxx (lt_irrefl x)
  · intro x
    constructor
    · rintro ⟨hx0, hxR⟩
      have hxx : ((x.toNat : Nat) : Int) = x := Int.toNat_of_nonneg hx0
      have hle : c * (x.toNat / c) ≤ x.toNat := by
        rw [Nat.mul_comm]
        exact Nat.div_mul_le_self _ _
      refine ⟨(c : Int) * ((x.toNat / c : Nat) : Int), ?_, ?_, ?_⟩
      · apply List.mem_map.mpr
        refine ⟨x.toNat / c, List.mem_range.mpr ((lt_ceil_iff hc R _).mpr ?_), rfl⟩
        have hxR2 : x.toNat < R := by omega
        exact lt_of_le_of_lt hle hxR2
      · calc (c : Int) * ((x.toNat / c : Nat) : Int)
            = ((c * (x.toNat / c) : Nat) : Int) := by push_cast; ring
          _ ≤ ((x.toNat : Nat) : Int) := by exact_mod_cast hle
          _ = x := hxx
      · rw [lt_min_iff]
        refine ⟨?_, hxR⟩
        have hmod := Nat.div_add_mod x.toNat c
        have hmlt : x.toNat % c < c := Nat.mod_lt _ hc
        have hlt : x.toNat < c * (x.toNat / c) + c := by
          generalize hA : c * (x.toNat / c) = A at hmod ⊢
          generalize hB : x.toNat % c = B at hmod hmlt
          omega
        calc x = ((x.toNat : Nat) : Int) := hxx.symm
          _ < ((c * (x.toNat / c) + c : Nat) : Int) := by exact_mod_cast hlt
          _ = (c : Int) * ((x.toNat / c : Nat) : Int) + (c : Int) := by push_cast; ring
    · rintro ⟨st, hmem, hst1, hst2⟩
      obtain ⟨i, _, rfl⟩ := List.mem_map.mp hmem
      exact ⟨le_trans (mul_nonneg (Int.natCast_nonneg c) (Int.natCast_nonneg i)) hst1,
        lt_of_lt_of_le hst2 (min_le_right _ _)⟩

theorem c2_chunk_coverage_witness :
    ((0 : Int) < 3) ∧
    (∃ starts : List Int,
      pyRange 0 ((7 : Nat) : Int) 3 = Except.ok starts ∧
      (∀ j : Fin starts.length, starts.get j = 3 * ((j : Nat) : Int)) ∧
      (∀ st ∈ starts, 0 ≤ st ∧ st < ((7 : Nat) : Int)) ∧
      List.Pairwise (fun s t => ∀ x : Int,
        ¬((s ≤ x ∧ x < min (s + 3) ((7 : Nat) : Int)) ∧
          (t ≤ x ∧ x < min (t + 3) ((7 : Nat) : Int)))) starts ∧
      (∀ x : Int, (0 ≤ x ∧ x < ((7 : Nat) : Int)) ↔
        ∃ st ∈ starts, st ≤ x ∧ x < min (st + 3) ((7 : Nat) : Int))) :=
  ⟨by decide, c2_chunk_coverage 7 3 (by decide)⟩

/-- The successful per-file work items: the value `filePlan` returns when
the file's scan succeeds and the chunk-start computation does not raise. -/
def fileItems {α : Type} (tbl : RelFile → List α) (cohortDir : List (List Char)) (C : Int)
    (sC : RelFile → List Int → List Int) (f : RelFile) : List (WorkItem α) :=
  match pyRange 0 (((tbl f).length : Nat) : Int) C with
  | Except.error _ => []
  | Except.ok starts =>
    (sC f starts).map (fun st =>
      let stop := min (st + C) (((tbl f).length : Nat) : Int)
      { path := cohortDir ++ [("sub_sharded").data] ++ shardOf f ++ [chunkFileName st stop],
        content := filter_to_row_chunk (tbl f).enum st stop })

lemma filePlan_ok {α : Type} (tbl : RelFile → List α) (cohortDir : List (List Char))
    (C : Int) (sC : RelFile → List Int → List Int) (f : RelFile)
    (hscan : (scan_with_row_idx tbl f).isOk = true) (hC : C ≠ 0) :
    filePlan tbl cohortDir C sC f = Except.ok (fileItems tbl cohortDir C sC f) := by
  have hscan2 := scan_ok_of_isOk tbl f hscan
  obtain ⟨starts, hstarts⟩ : ∃ starts, pyRange 0 (((tbl f).length : Nat) : Int) C
      = Except.ok starts := by
    unfold pyRange
    rw [if_neg hC]
    exact ⟨_, rfl⟩
  unfold filePlan
  rw [hscan2, bind_ok_eq]
  show (pyRange 0 ((tbl f).enum.length : Int) C >>= _) = _
  rw [List.enum_length, hstarts, bind_ok_eq]
  unfold fileItems
  rw [hstarts]

lemma filePlan_err_zero {α : Type} (tbl : RelFile → List α) (cohortDir : List (List Char))
    (sC : RelFile → List Int → List Int) (f : RelFile)
    (hscan : (scan_with_row_idx tbl f).isOk = true) :
    filePlan tbl cohortDir 0 sC f
      = Except.error (("range() arg 3 must not be zero").data) := by
  have hscan2 := scan_ok_of_isOk tbl f hscan
  unfold filePlan
  rw [hscan2, bind_ok_eq]
  show (pyRange 0 ((tbl f).enum.length : Int) 0 >>= _) = _
  unfold pyRange
  rw [if_pos rfl]
  rfl

lemma runFiles_all_error {α : Type} (tbl : RelFile → List α) (cohortDir : List (List Char))
    (C : Int) (sC : RelFile → List Int → List Int) (m : List Char) (l : List RelFile)
    (hl : ∀ f ∈ l, filePlan tbl cohortDir C sC f = Except.error m) :
    runFiles tbl cohortDir C sC l
      = if l = [] then (([], none) : List (WorkItem α) × Option (List Char))
        else ([], some m) := by
  cases l with
  | nil => simp [runFiles]
  | cons f rest =>
    have hf := hl f (List.mem_cons_self f rest)
    simp [runFiles, hf]

lemma runFiles_all_ok {α : Type} (tbl : RelFile → List α) (cohortDir : List (List Char))
    (C : Int) (sC : RelFile → List Int → List Int) (g : RelFile → List (WorkItem α)) :
    ∀ l : List RelFile, (∀ f ∈ l, filePlan tbl cohortDir C sC f = Except.ok (g f)) →
      runFiles tbl cohortDir C sC l = (l.flatMap g, none) := by
  intro l
  induction l with
  | nil => intro _; simp [runFiles]
  | cons f rest ih =>
    intro h
    have hf := h f (List.mem_cons_self f rest)
    have hrest := ih (fun x hx => h x (List.mem_cons_of_mem f hx))
    simp [runFiles, hf, hrest]

/-- C4 (amended): provided per-file dispatch succeeds for every accepted
file (in particular, no accepted `.csv.gz` file — see C1), any two
scheduling orders (any permutations of the accepted-file list and of each
file's chunk-start list) make the orchestrator produce the same multiset
of output targets with identical content per target, and the same final
error status; the randomized ordering never affects output content. -/
theorem c4_sched_invariance {α : Type} (tbl : RelFile → List α) (cohortDir : List (List Char))
    (C : Int) (sF1 sF2 : List RelFile → List RelFile)
    (sC1 sC2 : RelFile → List Int → List Int) (files : List RelFile)
    (hF1 : ∀ l, (sF1 l).Perm l) (hF2 : ∀ l, (sF2 l).Perm l)
    (hC1 : ∀ f l, (sC1 f l).Perm l) (hC2 : ∀ f l, (sC2 f l).Perm l)
    (hscan : ∀ f ∈ (discover files).1, (scan_with_row_idx tbl f).isOk = true) :
    ((mainRun tbl cohortDir C sF1 sC1 files).1 : Multiset (WorkItem α))
      = ((mainRun tbl cohortDir C sF2 sC2 files).1 : Multiset (WorkItem α)) ∧
    (mainRun tbl cohortDir C sF1 sC1 files).2
      = (mainRun tbl cohortDir C sF2 sC2 files).2 := by
  by_cases hC : C = 0
  · subst hC
    have e1 := runFiles_all_error tbl cohortDir 0 sC1
      (("range() arg 3 must not be zero").data) (sF1 (discover files).1)
      (fun f hf => filePlan_err_zero tbl cohortDir sC1 f
        (hscan f (((hF1 (discover files).1).mem_iff).mp hf)))
    have e2 := runFiles_all_error tbl cohortDir 0 sC2
      (("range() arg 3 must not be zero").data) (sF2 (discover files).1)
      (fun f hf => filePlan_err_zero tbl cohortDir sC2 f
        (hscan f (((hF2 (discover files).1).mem_iff).mp hf)))
    have hl1 : (sF1 (discover files).1) = [] ↔ (discover files).1 = [] := by
      rw [← List.length_eq_zero, ← List.length_eq_zero,
        (hF1 (discover files).1).length_eq]
    have hl2 : (sF2 (discover files).1) = [] ↔ (discover files).1 = [] := by
      rw [← List.length_eq_zero, ← List.length_eq_zero,
        (hF2 (discover files).1).length_eq]
    unfold mainRun
    rw [e1, e2]
    by_cases hacc : (discover files).1 = []
    · rw [if_pos (hl1.mpr hacc), if_pos (hl2.mpr hacc)]
      exact ⟨rfl, rfl⟩
    · rw [if_neg (fun h => hacc (hl1.mp h)), if_neg (fun h => hacc (hl2.mp h))]
      exact ⟨rfl, rfl⟩
  · have hr1 := runFiles_all_ok tbl cohortDir C sC1 (fileItems tbl cohortDir C sC1)
      (sF1 (discover files).1)
      (fun f hf => filePlan_ok tbl cohortDir C sC1 f
        (hscan f (((hF1 (discover files).1).mem_iff).mp hf)) hC)
    have hr2 := runFiles_all_ok tbl cohortDir C sC2 (fileItems tbl cohortDir C sC2)
      (sF2 (discover files).1)
      (fun f hf => filePlan_ok tbl cohortDir C sC2 f
        (hscan f (((hF2 (discover files).1).mem_iff).mp hf)) hC)
    unfold mainRun
    rw [hr1, hr2]
    refine ⟨?_, rfl⟩
    rw [Multiset.coe_eq_coe]
    have hitems : ∀ f ∈ (discover files).1,
        (fileItems tbl cohortDir C sC1 f).Perm (fileItems tbl cohortDir C sC2 f) := by
      intro f _
      unfold fileItems
      cases pyRange 0 (((tbl f).length : Nat) : Int) C with
      | error e => exact List.Perm.refl []
      | ok starts =>
        exact ((hC1 f starts).trans (hC2 f starts).symm).map _
    show ((sF1 (discover files).1).flatMap (fileItems tbl cohortDir C sC1)).Perm
      ((sF2 (discover files).1).flatMap (fileItems tbl cohortDir C sC2))
    exact ((List.Perm.flatMap_right (fileItems tbl cohortDir C sC1)
        (hF1 (discover files).1)).trans
      (List.Perm.flatMap_left ((discover files).1) hitems)).trans
      ((List.Perm.flatMap_right (fileItems tbl cohortDir C sC2)
        (hF2 (discover files).1)).symm)

theorem c4_sched_invariance_witness :
    (∀ f ∈ (discover [⟨[], ("a.parquet").data⟩, ⟨[], ("b.csv").data⟩]).1,
        (scan_with_row_idx (fun _ => ([0, 1] : List Nat)) f).isOk = true) ∧
    ((mainRun (fun _ => ([0, 1] : List Nat)) [] 1 (fun l => l) (fun _ l => l)
        [⟨[], ("a.parquet").data⟩, ⟨[], ("b.csv").data⟩]).1 : Multiset (WorkItem Nat))
      = ((mainRun (fun _ => ([0, 1] : List Nat)) [] 1 (fun l => l.reverse)
          (fun _ l => l.reverse)
          [⟨[], ("a.parquet").data⟩, ⟨[], ("b.csv").data⟩]).1 : Multiset (WorkItem Nat)) ∧
    (mainRun (fun _ => ([0, 1] : List Nat)) [] 1 (fun l => l) (fun _ l => l)
        [⟨[], ("a.parquet").data⟩, ⟨[], ("b.csv").data⟩]).2
      = (mainRun (fun _ => ([0, 1] : List Nat)) [] 1 (fun l => l.reverse)
          (fun _ l => l.reverse)
          [⟨[], ("a.parquet").data⟩, ⟨[], ("b.csv").data⟩]).2 := by
  obtain ⟨hm, he⟩ := c4_sched_invariance (fun _ => ([0, 1] : List Nat)) [] 1
    (fun l => l) (fun l => l.reverse) (fun _ l => l) (fun _ l => l.reverse)
    [⟨[], ("a.parquet").data⟩, ⟨[], ("b.csv").data⟩]
    (fun l => List.Perm.refl l) (fun l => l.reverse_perm)
    (fun _ l => List.Perm.refl l) (fun _ l => l.reverse_perm)
    (by decide)
  exact ⟨by decide, hm, he⟩

lemma runFiles_mem {α : Type} (tbl : RelFile → List α) (cohortDir : List (List Char))
    (C : Int) (sC : RelFile → List Int → List Int) :
    ∀ (l : List RelFile) (it : WorkItem α),
      it ∈ (runFiles tbl cohortDir C sC l).1 →
      ∃ f ∈ l, ∃ items, filePlan tbl cohortDir C sC f = Except.ok items ∧ it ∈ items := by
  intro l
  induction l with
  | nil =>
    intro it h
    simp [runFiles] at h
  | cons f rest ih =>
    intro it h
    cases hfp : filePlan tbl cohortDir C sC f with
    | error e =>
      simp [runFiles, hfp] at h
    | ok items =>
      simp only [runFiles, hfp, List.mem_append] at h
      rcases h with h | h
      · exact ⟨f, List.mem_cons_self f rest, items, hfp, h⟩
      · obtain ⟨g, hg, items2, hfp2, hit⟩ := ih it h
        exact ⟨g, List.mem_cons_of_mem f hg, items2, hfp2, hit⟩

lemma filePlan_ok_inv {α : Type} (tbl : RelFile → List α) (cohortDir : List (List Char))
    (C : Int) (sC : RelFile → List Int → List Int) (f : RelFile)
    (items : List (WorkItem α))
    (h : filePlan tbl cohortDir C sC f = Except.ok items) :
    ∃ starts, pyRange 0 (((tbl f).length : Nat) : Int) C = Except.ok starts ∧
      items = (sC f starts).map (fun st =>
        let stop := min (st + C) (((tbl f).length : Nat) : Int)
        { path := cohortDir ++ [("sub_sharded").data] ++ shardOf f ++ [chunkFileName st stop],
          content := filter_to_row_chunk (tbl f).enum st stop }) := by
  have hok : (filePlan tbl cohortDir C sC f).isOk = true := by
    rw [h]
    rfl
  have hCne : C ≠ 0 := by
    intro hC0
    subst hC0
    by_cases hscan : (scan_with_row_idx tbl f).isOk = true
    · rw [filePlan_err_zero tbl cohortDir sC f hscan] at h
      exact Except.noConfusion h
    · cases hs : scan_with_row_idx tbl f with
      | error e =>
        unfold filePlan at h
        rw [hs] at h
        exact Except.noConfusion h
      | ok df =>
        rw [hs] at hscan
        exact hscan rfl
  have hscan : (scan_with_row_idx tbl f).isOk = true := by
    cases hs : scan_with_row_idx tbl f with
    | error e =>
      unfold filePlan at h
      rw [hs] at h
      exact Except.noConfusion h
    | ok df =>
      rfl
  rw [filePlan_ok tbl cohortDir C sC f hscan hCne] at h
  obtain ⟨starts, hstarts⟩ : ∃ starts, pyRange 0 (((tbl f).length : Nat) : Int) C
      = Except.ok starts := by
    unfold pyRange
    rw [if_neg hCne]
    exact ⟨_, rfl⟩
  refine ⟨starts, hstarts, ?_⟩
  have hitems := Except.ok.inj h
  rw [← hitems]
  unfold fileItems
  rw [hstarts]

/-- C6 (amended): every work item the orchestrator dispatches for an
accepted file `f` and chunk `[st, min(st+C, R))` targets the output path
`<MEDS_cohort_dir>/sub_sharded/<shard prefix of f>/[<st>-<end>).parquet`,
where the shard prefix is the input path relative to `raw_cohort_dir`
with its name cut at the FIRST dot (this equals "extension stripped" only
when the base name contains no further dots), and its content is the
row-chunk filter of the row-indexed table at those bounds. -/
theorem c6_output_path {α : Type} (tbl : RelFile → List α) (cohortDir : List (List Char))
    (C : Int) (sF : List RelFile → List RelFile) (sC : RelFile → List Int → List Int)
    (files : List RelFile)
    (hF : ∀ l, (sF l).Perm l) (hC : ∀ f l, (sC f l).Perm l)
    (it : WorkItem α) (hit : it ∈ (mainRun tbl cohortDir C sF sC files).1) :
    ∃ f ∈ (discover files).1, ∃ starts : List Int,
      pyRange 0 (((tbl f).length : Nat) : Int) C = Except.ok starts ∧
      ∃ st ∈ starts,
        it.path = cohortDir ++ [("sub_sharded").data] ++ shardOf f ++
          [chunkFileName st (min (st + C) (((tbl f).length : Nat) : Int))] ∧
        it.content = filter_to_row_chunk (tbl f).enum st
          (min (st + C) (((tbl f).length : Nat) : Int)) := by
  unfold mainRun at hit
  obtain ⟨f, hf, items, hfp, hitems⟩ := runFiles_mem tbl cohortDir C sC _ it hit
  have hfacc : f ∈ (discover files).1 := ((hF (discover files).1).mem_iff).mp hf
  obtain ⟨starts, hstarts, rfl⟩ := filePlan_ok_inv tbl cohortDir C sC f items hfp
  obtain ⟨st, hstmem, rfl⟩ := List.mem_map.mp hitems
  have hstmem2 : st ∈ starts := ((hC f starts).mem_iff).mp hstmem
  exact ⟨f, hfacc, starts, hstarts, st, hstmem2, rfl, rfl⟩

theorem c6_output_path_witness :
    ((⟨[("sub_sharded").data, ("e").data, ("[0-1).parquet").data], [7]⟩ : WorkItem Nat)
        ∈ (mainRun (fun _ => ([7] : List Nat)) [] 1 (fun l => l) (fun _ l => l)
            [⟨[], ("e.csv").data⟩]).1) ∧
    (∃ f ∈ (discover [⟨[], ("e.csv").data⟩]).1, ∃ starts : List Int,
      pyRange 0 ((([7] : List Nat).length : Nat) : Int) 1 = Except.ok starts ∧
      ∃ st ∈ starts,
        (⟨[("sub_sharded").data, ("e").data, ("[0-1).parquet").data],
            [7]⟩ : WorkItem Nat).path
          = [] ++ [("sub_sharded").data] ++ shardOf f ++
            [chunkFileName st (min (st + 1) ((([7] : List Nat).length : Nat) : Int))] ∧
        (⟨[("sub_sharded").data, ("e").data, ("[0-1).parquet").data],
            [7]⟩ : WorkItem Nat).content
          = filter_to_row_chunk ([7] : List Nat).enum st
            (min (st + 1) ((([7] : List Nat).length : Nat) : Int))) := by
  refine ⟨by decide, ?_⟩
  exact c6_output_path (fun _ => ([7] : List Nat)) [] 1 (fun l => l) (fun _ l => l)
    [⟨[], ("e.csv").data⟩] (fun l => List.Perm.refl l) (fun _ l => List.Perm.refl l)
    ⟨[("sub_sharded").data, ("e").data, ("[0-1).parquet").data], [7]⟩ (by decide)
